import Mathlib

set_option maxHeartbeats 1000000

set_option maxRecDepth 100000

/-! Verification development for the Arc* event-camera corner detector
    (src/detector.rs and src/sae_types.rs).

    Modeling conventions:
    * `SaeTime` is Rust `u32`; timestamps are modeled as `Nat` (surface values
      are below 2^32 in the real program; `u32::max_value()` appears explicitly
      as `SAETIME_MAX`).
    * `usize` is 64-bit; the unsigned subtraction `dim - BORDER_INSET` in the
      border check wraps, so it is modeled with an explicit wrap (`usizeSub`),
      and the `i32 -> usize` cast in the ring samplers is `intCastUsize`.
    * Out-of-range matrix indexing panics in the source (nalgebra); a panic is
      modeled as `Except.error ()`.
    * `f32` arithmetic in the descriptor and likeness computations is modeled
      exactly over `ℚ` (division by zero is the `ℚ` convention `x / 0 = 0`). -/

namespace Arcstar

def USIZE_SIZE : Nat := 18446744073709551616

def SAETIME_MAX : Nat := 4294967295

/-- Rust `z as usize` for a 64-bit `usize` and `z : i32`/intermediate `Int`. -/
def intCastUsize (z : Int) : Nat := (z % (USIZE_SIZE : Int)).toNat

/-- Rust release-mode `a - b` on `usize` (wrapping subtraction), for `b ≤ USIZE_SIZE`. -/
def usizeSub (a b : Nat) : Nat := (a + (USIZE_SIZE - b)) % USIZE_SIZE

/-- Model of `SaeMatrix = DMatrix<SaeTime>`: a (rows, cols) extent plus the
    timestamp stored at each in-range position. -/
structure SaeMatrix where
  nrows : Nat
  ncols : Nat
  entry : Nat → Nat → Nat

/-- Model of `SaeEvent` (sae_types.rs); the `f32` descriptor entries are `ℚ`. -/
structure SaeEvent where
  row : Nat
  col : Nat
  polarity : Nat
  timestamp : Nat
  norm_descriptor : Option (List Rat)
  deriving DecidableEq

def CIRCLE3_DIM : Nat := 16

/-- pixel offsets of radius 3 circle surrounding point of interest -/
def CIRCLE3_GEN : List (Int × Int) :=
  [(0, 3), (1, 3), (2, 2), (3, 1),
   (3, 0), (3, -1), (2, -2), (1, -3),
   (0, -3), (-1, -3), (-2, -2), (-3, -1),
   (-3, 0), (-3, 1), (-2, 2), (-1, 3)]

def CIRCLE3_MIN_ARC_LEN : Nat := 3

def CIRCLE3_MAX_ARC_LEN : Nat := 6

def CIRCLE4_DIM : Nat := 20

/-- pixel offsets of radius 4 circle surrounding point of interest -/
def CIRCLE4_GEN : List (Int × Int) :=
  [(0, 4), (1, 4), (2, 3), (3, 2),
   (4, 1), (4, 0), (4, -1), (3, -2),
   (2, -3), (1, -4), (0, -4), (-1, -4),
   (-2, -3), (-3, -2), (-4, -1), (-4, 0),
   (-4, 1), (-3, 2), (-2, 3), (-1, 4)]

def CIRCLE4_MIN_ARC_LEN : Nat := 4

def CIRCLE4_MAX_ARC_LEN : Nat := 8

def BORDER_INSET : Nat := 4

def NORM_DESCRIPTOR_LEN : Nat := 36

/-- `sae_pol[(a, b)]`: nalgebra indexing, panics (here: `none`) out of range. -/
def saeRead (m : SaeMatrix) (a b : Nat) : Option Nat :=
  if a < m.nrows && b < m.ncols then some (m.entry a b) else none

/-- The sampling loop shared by `c3_vals_for_point` and `c4_vals_for_point`:
    read `sae_pol[((item.0 + irow) as usize, (item.1 + icol) as usize)]` for
    each offset, failing if any read is out of range. -/
def readRing (m : SaeMatrix) (row col : Nat) : List (Int × Int) → Option (List Nat)
  | [] => some []
  | p :: rest =>
    match saeRead m (intCastUsize ((row : Int) + p.1)) (intCastUsize ((col : Int) + p.2)),
          readRing m row col rest with
    | some v, some vs => some (v :: vs)
    | _, _ => none

/-- Get array of SAE values from the C3 circle surrounding the given point -/
def c3_vals_for_point (m : SaeMatrix) (row col : Nat) : Option (List Nat) :=
  readRing m row col CIRCLE3_GEN

/-- Get array of SAE values from the C4 circle surrounding the given point -/
def c4_vals_for_point (m : SaeMatrix) (row col : Nat) : Option (List Nat) :=
  readRing m row col CIRCLE4_GEN

/-- The scan loop of `find_freshest_in_circle`: `k` is the index of the head of
    the remaining list, the accumulator holds `(newest_idx, newest_val)`. -/
def freshestAux : List Nat → Nat → Nat × Nat → Nat × Nat
  | [], _, acc => acc
  | v :: rest, k, acc =>
    freshestAux rest (k + 1) (if v > acc.2 then (k, v) else acc)

/-- Find the freshest timestamp in the given circle -/
def find_freshest_in_circle (circle_vals : List Nat) : Nat × Nat :=
  freshestAux circle_vals 0 (0, 0)

/-- Mutable-loop state of `arcstar_expand`. -/
structure ArcState where
  cw_idx : Nat
  ccw_idx : Nat
  arc_cw_val : Nat
  arc_ccw_val : Nat
  arc_cw_oldest : Nat
  arc_ccw_oldest : Nat
  segment_oldest : Nat
  deriving DecidableEq

/-- One iteration of the first (`1..min_arc_size`) loop of `arcstar_expand`. -/
def bootStep (vals : List Nat) (dim : Nat) (s : ArcState) : ArcState :=
  if s.arc_cw_val > s.arc_ccw_val then
    let seg := if s.arc_cw_oldest < s.segment_oldest then s.arc_cw_oldest else s.segment_oldest
    let ci := (s.cw_idx + 1) % dim
    let cv := vals.getD ci 0
    let co := if cv < s.arc_cw_oldest then cv else s.arc_cw_oldest
    { s with cw_idx := ci, arc_cw_val := cv, arc_cw_oldest := co, segment_oldest := seg }
  else
    let seg := if s.arc_ccw_oldest < s.segment_oldest then s.arc_ccw_oldest else s.segment_oldest
    let ci := (s.ccw_idx + (dim - 1)) % dim
    let cv := vals.getD ci 0
    let co := if cv < s.arc_ccw_oldest then cv else s.arc_ccw_oldest
    { s with ccw_idx := ci, arc_ccw_val := cv, arc_ccw_oldest := co, segment_oldest := seg }

/-- One iteration of the second (`min_arc_size..circle_dim`) loop of
    `arcstar_expand`; the second component carries `freshest_arc_size`. -/
def growStep (vals : List Nat) (dim : Nat) (iteration : Nat) (p : ArcState × Nat) : ArcState × Nat :=
  let s := p.1
  if s.arc_cw_val > s.arc_ccw_val then
    let fs := if s.arc_cw_val ≥ s.segment_oldest then iteration + 1 else p.2
    let seg :=
      if s.arc_cw_val ≥ s.segment_oldest then
        if s.arc_cw_oldest < s.segment_oldest then s.arc_cw_oldest else s.segment_oldest
      else s.segment_oldest
    let ci := (s.cw_idx + 1) % dim
    let cv := vals.getD ci 0
    let co := if cv < s.arc_cw_oldest then cv else s.arc_cw_oldest
    ({ s with cw_idx := ci, arc_cw_val := cv, arc_cw_oldest := co, segment_oldest := seg }, fs)
  else
    let fs := if s.arc_ccw_val ≥ s.segment_oldest then iteration + 1 else p.2
    let seg :=
      if s.arc_ccw_val ≥ s.segment_oldest then
        if s.arc_ccw_oldest < s.segment_oldest then s.arc_ccw_oldest else s.segment_oldest
      else s.segment_oldest
    let ci := (s.ccw_idx + (dim - 1)) % dim
    let cv := vals.getD ci 0
    let co := if cv < s.arc_ccw_oldest then cv else s.arc_ccw_oldest
    ({ s with ccw_idx := ci, arc_ccw_val := cv, arc_ccw_oldest := co, segment_oldest := seg }, fs)

/-- returns the size of the arc segment containing the freshest SAE timestamps -/
def arcstar_expand (circle_vals : List Nat) (circle_dim min_arc_size newest_idx : Nat) : Nat :=
  let cw0 := (newest_idx + 1) % circle_dim
  let ccw0 := (newest_idx + (circle_dim - 1)) % circle_dim
  let s0 : ArcState :=
    { cw_idx := cw0, ccw_idx := ccw0,
      arc_cw_val := circle_vals.getD cw0 0, arc_ccw_val := circle_vals.getD ccw0 0,
      arc_cw_oldest := circle_vals.getD cw0 0, arc_ccw_oldest := circle_vals.getD ccw0 0,
      segment_oldest := SAETIME_MAX }
  let s1 := (List.range' 1 (min_arc_size - 1)).foldl (fun s _ => bootStep circle_vals circle_dim s) s0
  let p := (List.range' min_arc_size (circle_dim - min_arc_size)).foldl
    (fun p it => growStep circle_vals circle_dim it p) (s1, min_arc_size)
  p.2

/-! Reference algorithm of the spec (§4.2), for the refinement claim: two
    cursors walk clockwise and counter-clockwise from the freshest index; each
    side's tracked oldest value is the minimum value seen so far within that
    side's visited run (`none` before the side has seen anything), and the
    shared `segment_oldest` is lowered with an explicit `min`.  In the
    bootstrap phase the winning side is advanced and then `segment_oldest` is
    updated; in the growth phase the test against `segment_oldest` happens
    before advancing. -/

/-- Minimum of an optional previously-seen minimum and a newly seen value. -/
def optMin : Option Nat → Nat → Nat
  | none, v => v
  | some o, v => min o v

/-- State of the spec's reference algorithm. -/
structure ArcSpecState where
  cw_idx : Nat
  ccw_idx : Nat
  cw_seen : Option Nat
  ccw_seen : Option Nat
  segment_oldest : Nat
  deriving DecidableEq

/-- One bootstrap step of the spec's reference algorithm: advance the side
    whose next candidate value is larger, update that side's tracked oldest,
    then lower the shared `segment_oldest` to the minimum of itself and the
    advanced side's tracked oldest. -/
def specBootStep (vals : List Nat) (dim : Nat) (t : ArcSpecState) : ArcSpecState :=
  let cwCand := vals.getD t.cw_idx 0
  let ccwCand := vals.getD t.ccw_idx 0
  if cwCand > ccwCand then
    let old := optMin t.cw_seen cwCand
    { t with cw_idx := (t.cw_idx + 1) % dim, cw_seen := some old,
             segment_oldest := min t.segment_oldest old }
  else
    let old := optMin t.ccw_seen ccwCand
    { t with ccw_idx := (t.ccw_idx + (dim - 1)) % dim, ccw_seen := some old,
             segment_oldest := min t.segment_oldest old }

/-- One growth step of the spec's reference algorithm: before advancing, if the
    current value on the winning side is `≥ segment_oldest`, record the arc
    length as `iteration + 1` and lower `segment_oldest` to the winning side's
    tracked oldest when that is smaller; then advance. -/
def specGrowStep (vals : List Nat) (dim : Nat) (iteration : Nat)
    (p : ArcSpecState × Nat) : ArcSpecState × Nat :=
  let t := p.1
  let cwCand := vals.getD t.cw_idx 0
  let ccwCand := vals.getD t.ccw_idx 0
  if cwCand > ccwCand then
    let old := optMin t.cw_seen cwCand
    if cwCand ≥ t.segment_oldest then
      ({ t with cw_idx := (t.cw_idx + 1) % dim, cw_seen := some old,
                segment_oldest := min t.segment_oldest old }, iteration + 1)
    else
      ({ t with cw_idx := (t.cw_idx + 1) % dim, cw_seen := some old }, p.2)
  else
    let old := optMin t.ccw_seen ccwCand
    if ccwCand ≥ t.segment_oldest then
      ({ t with ccw_idx := (t.ccw_idx + (dim - 1)) % dim, ccw_seen := some old,
                segment_oldest := min t.segment_oldest old }, iteration + 1)
    else
      ({ t with ccw_idx := (t.ccw_idx + (dim - 1)) % dim, ccw_seen := some old }, p.2)

/-- The spec's two-phase reference algorithm (§4.2): `Lmin − 1` bootstrap steps
    then growth steps `Lmin` through `N − 1`; the result is the final recorded
    arc length, defaulting to `Lmin`. -/
def arcstarExpandSpec (circle_vals : List Nat) (circle_dim min_arc_size newest_idx : Nat) : Nat :=
  let t0 : ArcSpecState :=
    { cw_idx := (newest_idx + 1) % circle_dim,
      ccw_idx := (newest_idx + (circle_dim - 1)) % circle_dim,
      cw_seen := none, ccw_seen := none,
      segment_oldest := SAETIME_MAX }
  let t1 := (List.range' 1 (min_arc_size - 1)).foldl (fun t _ => specBootStep circle_vals circle_dim t) t0
  let q := (List.range' min_arc_size (circle_dim - min_arc_size)).foldl
    (fun q it => specGrowStep circle_vals circle_dim it q) (t1, min_arc_size)
  q.2

/-- The descriptor values contributed by one ring: walk the ring's sequence
    starting at that ring's freshest index, wrapping through all elements in
    order, each value contributing `1 - (freshest_seg_val - val)/freshest_seg_val`. -/
def ring_desc (vals : List Nat) (freshest_idx : Nat) (freshest_seg_val : Rat) : List Rat :=
  (List.range vals.length).map (fun i =>
    let true_idx := (i + freshest_idx) % vals.length
    let val : Rat := (vals.getD true_idx 0 : Nat)
    1 - (freshest_seg_val - val) / freshest_seg_val)

/-- returns whether the given point in updated SAE is a corner, together with
    the descriptor attached to the (cloned) event on acceptance.  `Except.error`
    models an out-of-range panic while sampling a ring. -/
def arcstar_check_for_point (m : SaeMatrix) (row col : Nat) :
    Except Unit (Bool × Option (List Rat)) :=
  match c3_vals_for_point m row col with
  | none => Except.error ()
  | some c3_vals =>
    let fr3 := find_freshest_in_circle c3_vals
    let freshest_c3_segment_size := arcstar_expand c3_vals CIRCLE3_DIM CIRCLE3_MIN_ARC_LEN fr3.1
    let arc_valid3 :=
      decide (freshest_c3_segment_size ≤ CIRCLE3_MAX_ARC_LEN) ||
        (decide (freshest_c3_segment_size ≥ CIRCLE3_DIM - CIRCLE3_MAX_ARC_LEN) &&
          decide (freshest_c3_segment_size ≤ CIRCLE3_DIM - CIRCLE3_MIN_ARC_LEN))
    if arc_valid3 then
      match c4_vals_for_point m row col with
      | none => Except.error ()
      | some c4_vals =>
        let fr4 := find_freshest_in_circle c4_vals
        let freshest_c4_segment_size := arcstar_expand c4_vals CIRCLE4_DIM CIRCLE4_MIN_ARC_LEN fr4.1
        let arc_valid4 :=
          decide (freshest_c4_segment_size ≤ CIRCLE4_MAX_ARC_LEN) ||
            (decide (freshest_c4_segment_size ≥ CIRCLE4_DIM - CIRCLE4_MAX_ARC_LEN) &&
              decide (freshest_c4_segment_size ≤ CIRCLE4_DIM - CIRCLE4_MIN_ARC_LEN))
        if arc_valid4 then
          let freshest_seg_val : Rat := (max fr3.2 fr4.2 : Nat)
          Except.ok (true, some (ring_desc c3_vals fr3.1 freshest_seg_val ++
                                 ring_desc c4_vals fr4.1 freshest_seg_val))
        else Except.ok (false, none)
    else Except.ok (false, none)

/-- Border filter plus `arcstar_check_for_point`; the `ncols - BORDER_INSET`
    and `nrows - BORDER_INSET` subtractions are `usize` subtractions. -/
def arcstar_is_event_corner (m : SaeMatrix) (row col : Nat) :
    Except Unit (Bool × Option (List Rat)) :=
  if decide (col < BORDER_INSET) || decide (col ≥ usizeSub m.ncols BORDER_INSET) ||
     decide (row < BORDER_INSET) || decide (row ≥ usizeSub m.nrows BORDER_INSET) then
    Except.ok (false, none)
  else
    arcstar_check_for_point m row col

/-- Detect whether the input event is a corner, and compute descriptor if so:
    returns a modified clone of the input event with computed descriptor, if it
    is a corner. -/
def detect_and_compute_one (m : SaeMatrix) (evt : SaeEvent) : Except Unit (Option SaeEvent) :=
  match arcstar_is_event_corner m evt.row evt.col with
  | Except.error () => Except.error ()
  | Except.ok (true, d) => Except.ok (some { evt with norm_descriptor := d })
  | Except.ok (false, _) => Except.ok none

/-- The accumulation loop of `likeness`: running totals
    `(da_total, db_total, min_total)` over paired descriptor entries. -/
def sumTriple : List Rat → List Rat → Rat × Rat × Rat
  | [], _ => (0, 0, 0)
  | _ :: _, [] => (0, 0, 0)
  | da :: das, db :: dbs =>
    let r := sumTriple das dbs
    (da + r.1, db + r.2.1, min da db + r.2.2)

/-- `SaeEvent::likeness` (sae_types.rs): 0 when either descriptor is absent,
    otherwise `min_total / max(da_total, db_total)`. -/
def likeness (a b : SaeEvent) : Rat :=
  match a.norm_descriptor, b.norm_descriptor with
  | none, _ => 0
  | _, none => 0
  | some a_desc, some b_desc =>
    let r := sumTriple a_desc b_desc
    let max_total := max r.1 r.2.1
    r.2.2 / max_total

deriving instance DecidableEq for Except

/-! Helper lemmas. -/

theorem min_as_ite (a b : Nat) : min b a = if a < b then a else b := by
  rcases Nat.lt_or_ge a b with h | h
  · rw [if_pos h, Nat.min_eq_right (Nat.le_of_lt h)]
  · rw [if_neg (Nat.not_lt.mpr h), Nat.min_eq_left h]

/-- Relation between the source loop state and the spec's reference state:
    the source's per-side `arc_*_oldest` trackers read one element ahead, so
    they equal the spec's per-side minimum-seen extended by the current
    candidate value. -/
def ArcRel (vals : List Nat) (s : ArcState) (t : ArcSpecState) : Prop :=
  s.cw_idx = t.cw_idx ∧ s.ccw_idx = t.ccw_idx ∧
  s.arc_cw_val = vals.getD t.cw_idx 0 ∧ s.arc_ccw_val = vals.getD t.ccw_idx 0 ∧
  s.arc_cw_oldest = optMin t.cw_seen (vals.getD t.cw_idx 0) ∧
  s.arc_ccw_oldest = optMin t.ccw_seen (vals.getD t.ccw_idx 0) ∧
  s.segment_oldest = t.segment_oldest

theorem bootStep_rel {vals : List Nat} {dim : Nat} {s : ArcState} {t : ArcSpecState}
    (h : ArcRel vals s t) : ArcRel vals (bootStep vals dim s) (specBootStep vals dim t) := by
  obtain ⟨h1, h2, h3, h4, h5, h6, h7⟩ := h
  unfold bootStep specBootStep ArcRel
  rw [h1, h2, h3, h4, h5, h6, h7]
  by_cases hcmp : vals.getD t.cw_idx 0 > vals.getD t.ccw_idx 0
  · rw [if_pos hcmp, if_pos hcmp]
    refine ⟨rfl, rfl, rfl, rfl, ?_, rfl, ?_⟩
    · simp only [optMin]
      exact (min_as_ite _ _).symm
    · exact (min_as_ite _ _).symm
  · rw [if_neg hcmp, if_neg hcmp]
    refine ⟨rfl, rfl, rfl, rfl, rfl, ?_, ?_⟩
    · simp only [optMin]
      exact (min_as_ite _ _).symm
    · exact (min_as_ite _ _).symm

theorem growStep_rel {vals : List Nat} {dim it : Nat} {p : ArcState × Nat} {q : ArcSpecState × Nat}
    (h : ArcRel vals p.1 q.1) (hf : p.2 = q.2) :
    ArcRel vals (growStep vals dim it p).1 (specGrowStep vals dim it q).1 ∧
      (growStep vals dim it p).2 = (specGrowStep vals dim it q).2 := by
  obtain ⟨h1, h2, h3, h4, h5, h6, h7⟩ := h
  simp only [growStep, specGrowStep, ArcRel]
  rw [h1, h2, h3, h4, h5, h6, h7, hf]
  by_cases hcmp : vals.getD q.1.cw_idx 0 > vals.getD q.1.ccw_idx 0
  · rw [if_pos hcmp, if_pos hcmp]
    by_cases hge : vals.getD q.1.cw_idx 0 ≥ q.1.segment_oldest
    · rw [if_pos hge, if_pos hge, if_pos hge]
      refine ⟨⟨rfl, rfl, rfl, rfl, ?_, rfl, ?_⟩, rfl⟩
      · simp only [optMin]
        exact (min_as_ite _ _).symm
      · exact (min_as_ite _ _).symm
    · rw [if_neg hge, if_neg hge, if_neg hge]
      refine ⟨⟨rfl, rfl, rfl, rfl, ?_, rfl, rfl⟩, rfl⟩
      simp only [optMin]
      exact (min_as_ite _ _).symm
  · rw [if_neg hcmp, if_neg hcmp]
    by_cases hge : vals.getD q.1.ccw_idx 0 ≥ q.1.segment_oldest
    · rw [if_pos hge, if_pos hge, if_pos hge]
      refine ⟨⟨rfl, rfl, rfl, rfl, rfl, ?_, ?_⟩, rfl⟩
      · simp only [optMin]
        exact (min_as_ite _ _).symm
      · exact (min_as_ite _ _).symm
    · rw [if_neg hge, if_neg hge, if_neg hge]
      refine ⟨⟨rfl, rfl, rfl, rfl, rfl, ?_, rfl⟩, rfl⟩
      simp only [optMin]
      exact (min_as_ite _ _).symm

theorem foldl_boot_rel (vals : List Nat) (dim : Nat) (l : List Nat) :
    ∀ (s : ArcState) (t : ArcSpecState), ArcRel vals s t →
      ArcRel vals (l.foldl (fun s _ => bootStep vals dim s) s)
        (l.foldl (fun t _ => specBootStep vals dim t) t) := by
  induction l with
  | nil => intro s t h; exact h
  | cons x xs ih =>
    intro s t h
    exact ih _ _ (bootStep_rel h)

theorem foldl_grow_rel (vals : List Nat) (dim : Nat) (l : List Nat) :
    ∀ (p : ArcState × Nat) (q : ArcSpecState × Nat), ArcRel vals p.1 q.1 → p.2 = q.2 →
      ArcRel vals (l.foldl (fun p it => growStep vals dim it p) p).1
        (l.foldl (fun q it => specGrowStep vals dim it q) q).1 ∧
      (l.foldl (fun p it => growStep vals dim it p) p).2 =
        (l.foldl (fun q it => specGrowStep vals dim it q) q).2 := by
  induction l with
  | nil => intro p q h hf; exact ⟨h, hf⟩
  | cons x xs ih =>
    intro p q h hf
    obtain ⟨h', hf'⟩ := @growStep_rel vals dim x p q h hf
    exact ih _ _ h' hf'

/-- C1: for every circular timestamp sequence with minimum arc length and
    freshest index as input, `arcstar_expand` computes exactly the two-phase
    reference algorithm of the spec: `Lmin − 1` bootstrap steps advancing the
    side with the larger next candidate and updating the shared
    `segment_oldest` to the minimum of itself and the advanced side's tracked
    oldest, then growth steps `Lmin` through `N − 1` recording
    `current_step_index + 1` when the winning side's current value is
    `≥ segment_oldest` (lowering `segment_oldest` to the winning side's tracked
    oldest when smaller), defaulting to `Lmin`. -/
theorem arcstar_expand_matches_spec (circle_vals : List Nat)
    (circle_dim min_arc_size newest_idx : Nat) :
    arcstar_expand circle_vals circle_dim min_arc_size newest_idx =
      arcstarExpandSpec circle_vals circle_dim min_arc_size newest_idx := by
  unfold arcstar_expand arcstarExpandSpec
  have hinit : ArcRel circle_vals
      { cw_idx := (newest_idx + 1) % circle_dim,
        ccw_idx := (newest_idx + (circle_dim - 1)) % circle_dim,
        arc_cw_val := circle_vals.getD ((newest_idx + 1) % circle_dim) 0,
        arc_ccw_val := circle_vals.getD ((newest_idx + (circle_dim - 1)) % circle_dim) 0,
        arc_cw_oldest := circle_vals.getD ((newest_idx + 1) % circle_dim) 0,
        arc_ccw_oldest := circle_vals.getD ((newest_idx + (circle_dim - 1)) % circle_dim) 0,
        segment_oldest := SAETIME_MAX }
      { cw_idx := (newest_idx + 1) % circle_dim,
        ccw_idx := (newest_idx + (circle_dim - 1)) % circle_dim,
        cw_seen := none, ccw_seen := none,
        segment_oldest := SAETIME_MAX } := by
    exact ⟨rfl, rfl, rfl, rfl, rfl, rfl, rfl⟩
  have hboot := foldl_boot_rel circle_vals circle_dim (List.range' 1 (min_arc_size - 1)) _ _ hinit
  exact (foldl_grow_rel circle_vals circle_dim
    (List.range' min_arc_size (circle_dim - min_arc_size)) _ _ hboot rfl).2

/-! Lemmas about `find_freshest_in_circle`. -/

theorem freshestAux_spec (l : List Nat) : ∀ (k bi bv : Nat),
    ((freshestAux l k (bi, bv)).1 = bi ∧ (freshestAux l k (bi, bv)).2 = bv ∧ ∀ x ∈ l, x ≤ bv) ∨
    (∃ j, j < l.length ∧ (freshestAux l k (bi, bv)).1 = k + j ∧
      (freshestAux l k (bi, bv)).2 = l.getD j 0 ∧ bv < l.getD j 0 ∧
      (∀ x ∈ l, x ≤ l.getD j 0) ∧ ∀ i, i < j → l.getD i 0 < l.getD j 0) := by
  induction l with
  | nil =>
    intro k bi bv
    exact Or.inl ⟨rfl, rfl, by intro x hx; cases hx⟩
  | cons v rest ih =>
    intro k bi bv
    simp only [freshestAux]
    by_cases hv : v > bv
    · rw [if_pos hv]
      rcases ih (k + 1) k v with ⟨ha, hb, hall⟩ | ⟨j, hj, ha, hb, hlt, hall, hfirst⟩
      · refine Or.inr ⟨0, Nat.succ_pos _, by rw [ha]; omega, by rw [hb]; rfl, hv, ?_, ?_⟩
        · intro x hx
          rcases List.mem_cons.mp hx with h | h
          · exact Nat.le_of_eq h
          · exact hall x h
        · intro i hi
          cases hi
      · refine Or.inr ⟨j + 1, Nat.succ_lt_succ hj, by rw [ha]; omega, by rw [hb]; rfl, ?_, ?_, ?_⟩
        · exact Nat.lt_trans hv hlt
        · intro x hx
          rcases List.mem_cons.mp hx with h | h
          · rw [h]; exact Nat.le_of_lt hlt
          · exact hall x h
        · intro i hi
          cases i with
          | zero => exact hlt
          | succ i' => exact hfirst i' (Nat.lt_of_succ_lt_succ hi)
    · rw [if_neg hv]
      have hvle : v ≤ bv := Nat.le_of_not_lt hv
      rcases ih (k + 1) bi bv with ⟨ha, hb, hall⟩ | ⟨j, hj, ha, hb, hlt, hall, hfirst⟩
      · refine Or.inl ⟨ha, hb, ?_⟩
        intro x hx
        rcases List.mem_cons.mp hx with h | h
        · rw [h]; exact hvle
        · exact hall x h
      · refine Or.inr ⟨j + 1, Nat.succ_lt_succ hj, by rw [ha]; omega, by rw [hb]; rfl, ?_, ?_, ?_⟩
        · exact hlt
        · intro x hx
          rcases List.mem_cons.mp hx with h | h
          · rw [h]; exact Nat.le_of_lt (Nat.lt_of_le_of_lt hvle hlt)
          · exact hall x h
        · intro i hi
          cases i with
          | zero => exact Nat.lt_of_le_of_lt hvle hlt
          | succ i' => exact hfirst i' (Nat.lt_of_succ_lt_succ hi)

theorem foldr_max_le (l : List Nat) (x : Nat) (h : ∀ y ∈ l, y ≤ x) : l.foldr max 0 ≤ x := by
  induction l with
  | nil => exact Nat.zero_le x
  | cons a rest ih =>
    have ha : a ≤ x := h a (List.mem_cons_self a rest)
    have hr : rest.foldr max 0 ≤ x := ih (fun y hy => h y (List.mem_cons_of_mem a hy))
    simpa using Nat.max_le.mpr ⟨ha, hr⟩

theorem foldr_max_eq (l : List Nat) (x : Nat) (hmem : x ∈ l) (hub : ∀ y ∈ l, y ≤ x) :
    l.foldr max 0 = x := by
  induction l with
  | nil => cases hmem
  | cons a rest ih =>
    show max a (rest.foldr max 0) = x
    rcases List.mem_cons.mp hmem with h | h
    · rw [h]
      have hrest : ∀ y ∈ rest, y ≤ a := fun y hy => h ▸ hub y (List.mem_cons_of_mem a hy)
      exact Nat.max_eq_left (foldr_max_le rest a hrest)
    · have hr : rest.foldr max 0 = x := ih h (fun y hy => hub y (List.mem_cons_of_mem a hy))
      rw [hr]
      exact Nat.max_eq_right (hub a (List.mem_cons_self a rest))

/-- The value returned by `find_freshest_in_circle` is the maximum of the
    sequence (with 0 for an empty sequence). -/
theorem find_freshest_val (l : List Nat) :
    (find_freshest_in_circle l).2 = l.foldr max 0 := by
  unfold find_freshest_in_circle
  rcases freshestAux_spec l 0 0 0 with ⟨_, hb, hall⟩ | ⟨j, hj, _, hb, _, hall, _⟩
  · rw [hb]
    have : l.foldr max 0 ≤ 0 := foldr_max_le l 0 hall
    omega
  · rw [hb]
    exact (foldr_max_eq l (l.getD j 0)
      (by rw [List.getD_eq_getElem l 0 hj]; exact List.getElem_mem hj) hall).symm

/-- C6: `find_freshest_in_circle` returns the index of the element with the
    largest timestamp, updating only on strictly-greater comparisons, so that
    a repeated maximum resolves to its first (lowest) occurrence. -/
theorem find_freshest_in_circle_first_max (circle_vals : List Nat) (h : circle_vals ≠ []) :
    (find_freshest_in_circle circle_vals).1 < circle_vals.length ∧
    circle_vals.getD (find_freshest_in_circle circle_vals).1 0 =
      (find_freshest_in_circle circle_vals).2 ∧
    (∀ x ∈ circle_vals, x ≤ (find_freshest_in_circle circle_vals).2) ∧
    (∀ i, i < (find_freshest_in_circle circle_vals).1 →
      circle_vals.getD i 0 < (find_freshest_in_circle circle_vals).2) := by
  rcases freshestAux_spec circle_vals 0 0 0 with ⟨ha, hb, hall⟩ | ⟨j, hj, ha, hb, _, hall, hfirst⟩
  · have hlen : 0 < circle_vals.length := List.length_pos.mpr h
    unfold find_freshest_in_circle
    rw [ha, hb]
    have hz : circle_vals.getD 0 0 = 0 := by
      cases circle_vals with
      | nil => rfl
      | cons a rest =>
        have : a ≤ 0 := hall a (List.mem_cons_self a rest)
        simpa using this
    exact ⟨hlen, hz, hall, fun i hi => absurd hi (Nat.not_lt_zero i)⟩
  · unfold find_freshest_in_circle
    rw [ha, hb]
    refine ⟨by simpa using hj, by simp, hall, ?_⟩
    intro i hi
    exact hfirst i (by simpa using hi)

/-- C6 witness. -/
theorem find_freshest_in_circle_first_max_example :
    ([3, 7, 7, 1] : List Nat) ≠ [] ∧
    (find_freshest_in_circle [3, 7, 7, 1]).1 < ([3, 7, 7, 1] : List Nat).length ∧
    ([3, 7, 7, 1] : List Nat).getD (find_freshest_in_circle [3, 7, 7, 1]).1 0 =
      (find_freshest_in_circle [3, 7, 7, 1]).2 ∧
    (∀ x ∈ ([3, 7, 7, 1] : List Nat), x ≤ (find_freshest_in_circle [3, 7, 7, 1]).2) ∧
    (∀ i, i < (find_freshest_in_circle [3, 7, 7, 1]).1 →
      ([3, 7, 7, 1] : List Nat).getD i 0 < (find_freshest_in_circle [3, 7, 7, 1]).2) :=
  ⟨by decide, find_freshest_in_circle_first_max [3, 7, 7, 1] (by decide)⟩

/-! Border check. -/

theorem usizeSub_eq {a b : Nat} (hb : b ≤ a) (ha : a < USIZE_SIZE) : usizeSub a b = a - b := by
  unfold usizeSub
  unfold USIZE_SIZE at ha ⊢
  omega

theorem detect_border_reject (m : SaeMatrix) (evt : SaeEvent)
    (hcond : (decide (evt.col < BORDER_INSET) || decide (evt.col ≥ usizeSub m.ncols BORDER_INSET) ||
      decide (evt.row < BORDER_INSET) || decide (evt.row ≥ usizeSub m.nrows BORDER_INSET)) = true) :
    detect_and_compute_one m evt = Except.ok none := by
  unfold detect_and_compute_one arcstar_is_event_corner
  rw [if_pos hcond]

/-- A 2-by-2 all-zero surface: smaller than the border inset in both dimensions. -/
def degMat : SaeMatrix := { nrows := 2, ncols := 2, entry := fun _ _ => 0 }

/-- An event whose pixel coordinates lie outside a degenerate surface. -/
def farEvt : SaeEvent := { row := 4, col := 4, polarity := 0, timestamp := 0, norm_descriptor := none }

/-- C3 (amended): for every surface whose dimensions are each at least the
    4-pixel border inset, any event whose pixel lies within the margin (column
    or row index below 4, or at least the dimension minus 4) is rejected with
    no value, regardless of surface contents. -/
theorem border_margin_rejected (m : SaeMatrix) (evt : SaeEvent)
    (hrn : BORDER_INSET ≤ m.nrows) (hcn : BORDER_INSET ≤ m.ncols)
    (hru : m.nrows < USIZE_SIZE) (hcu : m.ncols < USIZE_SIZE)
    (hmargin : evt.col < BORDER_INSET ∨ m.ncols - BORDER_INSET ≤ evt.col ∨
               evt.row < BORDER_INSET ∨ m.nrows - BORDER_INSET ≤ evt.row) :
    detect_and_compute_one m evt = Except.ok none := by
  apply detect_border_reject
  rw [usizeSub_eq hcn hcu, usizeSub_eq hrn hru]
  simp only [Bool.or_eq_true, decide_eq_true_eq, ge_iff_le]
  omega

/-- C3 witness: on a 9-by-9 surface the event at (0, 0) is in the margin and is
    rejected. -/
theorem border_margin_rejected_witness :
    detect_and_compute_one { nrows := 9, ncols := 9, entry := fun r c => r + c }
      { row := 0, col := 0, polarity := 1, timestamp := 5, norm_descriptor := none } =
      Except.ok none :=
  border_margin_rejected _ _ (by decide) (by decide) (by decide) (by decide)
    (Or.inl (by decide))

/-- C3 counterexample: on a 2-by-2 surface the event at (4, 4) lies within the
    claimed margin (column at least `ncols − 4`), yet `detect_and_compute_one`
    does not return the no-value outcome: the wrapped border test lets the
    point through and the ring sampler indexes out of range (a panic). -/
theorem border_margin_rejected_cex :
    (farEvt.col < BORDER_INSET ∨ degMat.ncols - BORDER_INSET ≤ farEvt.col ∨
     farEvt.row < BORDER_INSET ∨ degMat.nrows - BORDER_INSET ≤ farEvt.row) ∧
    ¬ detect_and_compute_one degMat farEvt = Except.ok none := by
  constructor
  · exact Or.inr (Or.inl (by decide))
  · decide

/-- C9 (amended): for every surface whose dimensions are each at least the
    4-pixel border inset and less than 8 (so no interior pixel exists), every
    event is rejected as border, with no error. -/
theorem small_surface_all_border (m : SaeMatrix) (evt : SaeEvent)
    (hr1 : BORDER_INSET ≤ m.nrows) (hr2 : m.nrows < 2 * BORDER_INSET)
    (hc1 : BORDER_INSET ≤ m.ncols) (hc2 : m.ncols < 2 * BORDER_INSET) :
    detect_and_compute_one m evt = Except.ok none := by
  have hB : BORDER_INSET = 4 := rfl
  have hU : USIZE_SIZE = 18446744073709551616 := rfl
  have hcu : m.ncols < USIZE_SIZE := by omega
  have hru : m.nrows < USIZE_SIZE := by omega
  apply detect_border_reject
  rw [usizeSub_eq hc1 hcu, usizeSub_eq hr1 hru]
  simp only [Bool.or_eq_true, decide_eq_true_eq, ge_iff_le]
  omega

/-- C9 witness: a 6-by-6 surface rejects the event at (5, 5) as border. -/
theorem small_surface_all_border_witness :
    detect_and_compute_one { nrows := 6, ncols := 6, entry := fun r c => r * c + 1 }
      { row := 5, col := 5, polarity := 0, timestamp := 3, norm_descriptor := none } =
      Except.ok none :=
  small_surface_all_border _ _ (by decide) (by decide) (by decide) (by decide)

/-- C9 counterexample: a surface smaller than the border inset in both
    dimensions (2-by-2) does not reject the event at (4, 4) as border; the
    unsigned `dimension − 4` wraps, the point passes the filter, and the ring
    sampler indexes out of range — an error, not a rejection. -/
theorem small_surface_all_border_cex :
    degMat.nrows = 2 ∧ degMat.ncols = 2 ∧
    detect_and_compute_one degMat farEvt = Except.error () := by
  refine ⟨rfl, rfl, ?_⟩
  decide

/-! Ring sampling on interior pixels of an all-zero surface. -/

theorem intCastUsize_of_nonneg {z : Int} (h0 : 0 ≤ z) (hlt : z < (USIZE_SIZE : Int)) :
    intCastUsize z = z.toNat := by
  unfold intCastUsize
  rw [Int.emod_eq_of_lt h0 hlt]

theorem readRing_interior_zero (m : SaeMatrix) (row col : Nat) (gen : List (Int × Int))
    (hgen : ∀ p ∈ gen, p.1.natAbs ≤ BORDER_INSET ∧ p.2.natAbs ≤ BORDER_INSET)
    (hzero : ∀ r c, r < m.nrows → c < m.ncols → m.entry r c = 0)
    (hr1 : BORDER_INSET ≤ row) (hr2 : row + BORDER_INSET < m.nrows)
    (hc1 : BORDER_INSET ≤ col) (hc2 : col + BORDER_INSET < m.ncols)
    (hru : m.nrows < USIZE_SIZE) (hcu : m.ncols < USIZE_SIZE) :
    readRing m row col gen = some (List.replicate gen.length 0) := by
  induction gen with
  | nil => rfl
  | cons p rest ih =>
    have hp1 := (hgen p (List.mem_cons_self p rest)).1
    have hp2 := (hgen p (List.mem_cons_self p rest)).2
    have e1 : intCastUsize ((row : Int) + p.1) = ((row : Int) + p.1).toNat :=
      intCastUsize_of_nonneg (by omega) (by omega)
    have e2 : intCastUsize ((col : Int) + p.2) = ((col : Int) + p.2).toNat :=
      intCastUsize_of_nonneg (by omega) (by omega)
    have hb1 : ((row : Int) + p.1).toNat < m.nrows := by omega
    have hb2 : ((col : Int) + p.2).toNat < m.ncols := by omega
    have hread : saeRead m (intCastUsize ((row : Int) + p.1)) (intCastUsize ((col : Int) + p.2)) =
        some 0 := by
      rw [e1, e2]
      unfold saeRead
      rw [if_pos (by simp only [Bool.and_eq_true, decide_eq_true_eq]; exact ⟨hb1, hb2⟩)]
      rw [hzero _ _ hb1 hb2]
    have hrest : readRing m row col rest = some (List.replicate rest.length 0) :=
      ih (fun q hq => hgen q (List.mem_cons_of_mem p hq))
    show (match saeRead m (intCastUsize ((row : Int) + p.1)) (intCastUsize ((col : Int) + p.2)),
          readRing m row col rest with
      | some v, some vs => some (v :: vs)
      | _, _ => none) = some (List.replicate (p :: rest).length 0)
    rw [hread, hrest]
    rfl

/-- Short-circuit: if the radius-3 arc length fails the validity test, the
    classifier rejects without touching the radius-4 ring. -/
theorem check_of_invalid3 (m : SaeMatrix) (row col : Nat) (v3 : List Nat)
    (h3 : c3_vals_for_point m row col = some v3)
    (hbad : (decide (arcstar_expand v3 CIRCLE3_DIM CIRCLE3_MIN_ARC_LEN
        (find_freshest_in_circle v3).1 ≤ CIRCLE3_MAX_ARC_LEN) ||
      (decide (arcstar_expand v3 CIRCLE3_DIM CIRCLE3_MIN_ARC_LEN
        (find_freshest_in_circle v3).1 ≥ CIRCLE3_DIM - CIRCLE3_MAX_ARC_LEN) &&
       decide (arcstar_expand v3 CIRCLE3_DIM CIRCLE3_MIN_ARC_LEN
        (find_freshest_in_circle v3).1 ≤ CIRCLE3_DIM - CIRCLE3_MIN_ARC_LEN))) = false) :
    arcstar_check_for_point m row col = Except.ok (false, none) := by
  unfold arcstar_check_for_point
  rw [h3]
  simp only [hbad, Bool.false_eq_true, if_false]

/-- C5: for every all-zero surface and every interior pixel (at least 4 pixels
    from every edge), `detect_and_compute_one` returns no value: the freshest
    arc expands to the whole radius-3 ring (length 16), which fails the ring-3
    validity test. -/
theorem blank_surface_no_corner (m : SaeMatrix) (evt : SaeEvent)
    (hzero : ∀ r c, r < m.nrows → c < m.ncols → m.entry r c = 0)
    (hr1 : BORDER_INSET ≤ evt.row) (hr2 : evt.row + BORDER_INSET < m.nrows)
    (hc1 : BORDER_INSET ≤ evt.col) (hc2 : evt.col + BORDER_INSET < m.ncols)
    (hru : m.nrows < USIZE_SIZE) (hcu : m.ncols < USIZE_SIZE) :
    detect_and_compute_one m evt = Except.ok none := by
  have h3 : c3_vals_for_point m evt.row evt.col = some (List.replicate 16 0) := by
    unfold c3_vals_for_point
    rw [readRing_interior_zero m evt.row evt.col CIRCLE3_GEN (by decide) hzero hr1 hr2 hc1 hc2 hru hcu]
    rfl
  have hchk : arcstar_check_for_point m evt.row evt.col = Except.ok (false, none) :=
    check_of_invalid3 m evt.row evt.col (List.replicate 16 0) h3 (by decide)
  have hcond : (decide (evt.col < BORDER_INSET) ||
      decide (evt.col ≥ usizeSub m.ncols BORDER_INSET) ||
      decide (evt.row < BORDER_INSET) ||
      decide (evt.row ≥ usizeSub m.nrows BORDER_INSET)) = false := by
    rw [usizeSub_eq (by omega) hcu, usizeSub_eq (by omega) hru]
    simp only [Bool.or_eq_false_iff, decide_eq_false_iff_not, ge_iff_le, not_lt, not_le]
    omega
  unfold detect_and_compute_one arcstar_is_event_corner
  rw [if_neg (by rw [hcond]; exact Bool.false_ne_true), hchk]

/-- C5 witness: a 9-by-9 all-zero surface rejects the center pixel (4, 4). -/
theorem blank_surface_no_corner_witness :
    detect_and_compute_one { nrows := 9, ncols := 9, entry := fun _ _ => 0 }
      { row := 4, col := 4, polarity := 1, timestamp := 7, norm_descriptor := none } =
      Except.ok none :=
  blank_surface_no_corner _ _ (fun _ _ _ _ => rfl) (by decide) (by decide) (by decide) (by decide)
    (by decide) (by decide)

/-! Ring validity (classifier acceptance). -/

theorem match_c4_reduce (m : SaeMatrix) (row col : Nat) (v4 : List Nat)
    (f : List Nat → Except Unit (Bool × Option (List Rat)))
    (h4 : c4_vals_for_point m row col = some v4) :
    (match c4_vals_for_point m row col with
     | none => Except.error ()
     | some c4_vals => f c4_vals) = f v4 := by
  rw [h4]

theorem check_unfold_sampled (m : SaeMatrix) (row col : Nat) (v3 : List Nat)
    (h3 : c3_vals_for_point m row col = some v3) :
    arcstar_check_for_point m row col =
      (if (decide (arcstar_expand v3 CIRCLE3_DIM CIRCLE3_MIN_ARC_LEN
            (find_freshest_in_circle v3).1 ≤ CIRCLE3_MAX_ARC_LEN) ||
          (decide (arcstar_expand v3 CIRCLE3_DIM CIRCLE3_MIN_ARC_LEN
            (find_freshest_in_circle v3).1 ≥ CIRCLE3_DIM - CIRCLE3_MAX_ARC_LEN) &&
           decide (arcstar_expand v3 CIRCLE3_DIM CIRCLE3_MIN_ARC_LEN
            (find_freshest_in_circle v3).1 ≤ CIRCLE3_DIM - CIRCLE3_MIN_ARC_LEN))) then
        match c4_vals_for_point m row col with
        | none => Except.error ()
        | some c4_vals =>
          if (decide (arcstar_expand c4_vals CIRCLE4_DIM CIRCLE4_MIN_ARC_LEN
                (find_freshest_in_circle c4_vals).1 ≤ CIRCLE4_MAX_ARC_LEN) ||
              (decide (arcstar_expand c4_vals CIRCLE4_DIM CIRCLE4_MIN_ARC_LEN
                (find_freshest_in_circle c4_vals).1 ≥ CIRCLE4_DIM - CIRCLE4_MAX_ARC_LEN) &&
               decide (arcstar_expand c4_vals CIRCLE4_DIM CIRCLE4_MIN_ARC_LEN
                (find_freshest_in_circle c4_vals).1 ≤ CIRCLE4_DIM - CIRCLE4_MIN_ARC_LEN))) then
            Except.ok (true, some
              (ring_desc v3 (find_freshest_in_circle v3).1
                ((max (find_freshest_in_circle v3).2 (find_freshest_in_circle c4_vals).2 : Nat) : Rat) ++
               ring_desc c4_vals (find_freshest_in_circle c4_vals).1
                ((max (find_freshest_in_circle v3).2 (find_freshest_in_circle c4_vals).2 : Nat) : Rat)))
          else Except.ok (false, none)
      else Except.ok (false, none)) := by
  unfold arcstar_check_for_point
  rw [h3]

/-- C2: the classifier accepts a ring's arc length `len` exactly when
    `len ≤ Lmax ∨ (N − Lmax ≤ len ∧ len ≤ N − Lmin)` with `(Lmin, Lmax, N)`
    equal to `(3, 6, 16)` for the radius-3 ring and `(4, 8, 20)` for the
    radius-4 ring; the event is a corner exactly when both rings pass, and a
    ring-3 failure rejects without evaluating ring 4. -/
theorem ring_arc_validity (m : SaeMatrix) (row col : Nat) (v3 : List Nat)
    (h3 : c3_vals_for_point m row col = some v3) :
    (¬ (arcstar_expand v3 CIRCLE3_DIM CIRCLE3_MIN_ARC_LEN (find_freshest_in_circle v3).1 ≤ 6 ∨
        (16 - 6 ≤ arcstar_expand v3 CIRCLE3_DIM CIRCLE3_MIN_ARC_LEN (find_freshest_in_circle v3).1 ∧
         arcstar_expand v3 CIRCLE3_DIM CIRCLE3_MIN_ARC_LEN (find_freshest_in_circle v3).1 ≤ 16 - 3)) →
      arcstar_check_for_point m row col = Except.ok (false, none)) ∧
    (∀ v4, c4_vals_for_point m row col = some v4 →
      (arcstar_check_for_point m row col).map Prod.fst =
        Except.ok
          (decide (arcstar_expand v3 CIRCLE3_DIM CIRCLE3_MIN_ARC_LEN
              (find_freshest_in_circle v3).1 ≤ 6 ∨
            (16 - 6 ≤ arcstar_expand v3 CIRCLE3_DIM CIRCLE3_MIN_ARC_LEN
              (find_freshest_in_circle v3).1 ∧
             arcstar_expand v3 CIRCLE3_DIM CIRCLE3_MIN_ARC_LEN
              (find_freshest_in_circle v3).1 ≤ 16 - 3)) &&
           decide (arcstar_expand v4 CIRCLE4_DIM CIRCLE4_MIN_ARC_LEN
              (find_freshest_in_circle v4).1 ≤ 8 ∨
            (20 - 8 ≤ arcstar_expand v4 CIRCLE4_DIM CIRCLE4_MIN_ARC_LEN
              (find_freshest_in_circle v4).1 ∧
             arcstar_expand v4 CIRCLE4_DIM CIRCLE4_MIN_ARC_LEN
              (find_freshest_in_circle v4).1 ≤ 20 - 4)))) := by
  have hb3 : (decide (arcstar_expand v3 CIRCLE3_DIM CIRCLE3_MIN_ARC_LEN
        (find_freshest_in_circle v3).1 ≤ CIRCLE3_MAX_ARC_LEN) ||
      (decide (arcstar_expand v3 CIRCLE3_DIM CIRCLE3_MIN_ARC_LEN
        (find_freshest_in_circle v3).1 ≥ CIRCLE3_DIM - CIRCLE3_MAX_ARC_LEN) &&
       decide (arcstar_expand v3 CIRCLE3_DIM CIRCLE3_MIN_ARC_LEN
        (find_freshest_in_circle v3).1 ≤ CIRCLE3_DIM - CIRCLE3_MIN_ARC_LEN))) =
      decide (arcstar_expand v3 CIRCLE3_DIM CIRCLE3_MIN_ARC_LEN
          (find_freshest_in_circle v3).1 ≤ 6 ∨
        (16 - 6 ≤ arcstar_expand v3 CIRCLE3_DIM CIRCLE3_MIN_ARC_LEN
          (find_freshest_in_circle v3).1 ∧
         arcstar_expand v3 CIRCLE3_DIM CIRCLE3_MIN_ARC_LEN
          (find_freshest_in_circle v3).1 ≤ 16 - 3)) := by
    rw [Bool.decide_or, Bool.decide_and]
    rfl
  constructor
  · intro hnot
    exact check_of_invalid3 m row col v3 h3 (by rw [hb3]; exact decide_eq_false hnot)
  · intro v4 h4
    have hb4 : (decide (arcstar_expand v4 CIRCLE4_DIM CIRCLE4_MIN_ARC_LEN
          (find_freshest_in_circle v4).1 ≤ CIRCLE4_MAX_ARC_LEN) ||
        (decide (arcstar_expand v4 CIRCLE4_DIM CIRCLE4_MIN_ARC_LEN
          (find_freshest_in_circle v4).1 ≥ CIRCLE4_DIM - CIRCLE4_MAX_ARC_LEN) &&
         decide (arcstar_expand v4 CIRCLE4_DIM CIRCLE4_MIN_ARC_LEN
          (find_freshest_in_circle v4).1 ≤ CIRCLE4_DIM - CIRCLE4_MIN_ARC_LEN))) =
        decide (arcstar_expand v4 CIRCLE4_DIM CIRCLE4_MIN_ARC_LEN
            (find_freshest_in_circle v4).1 ≤ 8 ∨
          (20 - 8 ≤ arcstar_expand v4 CIRCLE4_DIM CIRCLE4_MIN_ARC_LEN
            (find_freshest_in_circle v4).1 ∧
           arcstar_expand v4 CIRCLE4_DIM CIRCLE4_MIN_ARC_LEN
            (find_freshest_in_circle v4).1 ≤ 20 - 4)) := by
      rw [Bool.decide_or, Bool.decide_and]
      rfl
    rw [check_unfold_sampled m row col v3 h3]
    by_cases hp3 : arcstar_expand v3 CIRCLE3_DIM CIRCLE3_MIN_ARC_LEN
        (find_freshest_in_circle v3).1 ≤ 6 ∨
      (16 - 6 ≤ arcstar_expand v3 CIRCLE3_DIM CIRCLE3_MIN_ARC_LEN
        (find_freshest_in_circle v3).1 ∧
       arcstar_expand v3 CIRCLE3_DIM CIRCLE3_MIN_ARC_LEN
        (find_freshest_in_circle v3).1 ≤ 16 - 3)
    · rw [if_pos (by rw [hb3]; exact decide_eq_true hp3)]
      rw [match_c4_reduce m row col v4 _ h4]
      by_cases hp4 : arcstar_expand v4 CIRCLE4_DIM CIRCLE4_MIN_ARC_LEN
          (find_freshest_in_circle v4).1 ≤ 8 ∨
        (20 - 8 ≤ arcstar_expand v4 CIRCLE4_DIM CIRCLE4_MIN_ARC_LEN
          (find_freshest_in_circle v4).1 ∧
         arcstar_expand v4 CIRCLE4_DIM CIRCLE4_MIN_ARC_LEN
          (find_freshest_in_circle v4).1 ≤ 20 - 4)
      · rw [if_pos (by rw [hb4]; exact decide_eq_true hp4)]
        simp [Except.map, decide_eq_true hp3, decide_eq_true hp4]
      · rw [if_neg (by rw [hb4, decide_eq_false hp4]; exact Bool.false_ne_true)]
        simp [Except.map, decide_eq_false hp4]
    · rw [if_neg (by rw [hb3, decide_eq_false hp3]; exact Bool.false_ne_true)]
      simp [Except.map, decide_eq_false hp3]

/-- C2 witness: on a 9-by-9 all-zero surface at (4, 4), the radius-3 arc
    length is 16, which fails the ring-3 test, and the classifier rejects. -/
theorem ring_arc_validity_witness :
    arcstar_check_for_point { nrows := 9, ncols := 9, entry := fun _ _ => 0 } 4 4 =
      Except.ok (false, none) :=
  (ring_arc_validity { nrows := 9, ncols := 9, entry := fun _ _ => 0 } 4 4
    (List.replicate 16 0) (by decide)).1 (by decide)

/-! Inversion helpers for the acceptance path. -/

theorem readRing_length (m : SaeMatrix) (row col : Nat) (gen : List (Int × Int)) :
    ∀ vs, readRing m row col gen = some vs → vs.length = gen.length := by
  induction gen with
  | nil =>
    intro vs h
    simp only [readRing] at h
    cases h
    rfl
  | cons p rest ih =>
    intro vs h
    simp only [readRing] at h
    rcases hs : saeRead m (intCastUsize ((row : Int) + p.1)) (intCastUsize ((col : Int) + p.2))
      with _ | v
    · rw [hs] at h
      cases h
    · rcases ht : readRing m row col rest with _ | vs'
      · rw [hs, ht] at h
        cases h
      · rw [hs, ht] at h
        cases h
        simp only [List.length_cons, ih vs' ht]

theorem ring_desc_length (vals : List Nat) (fidx : Nat) (F : Rat) :
    (ring_desc vals fidx F).length = vals.length := by
  unfold ring_desc
  rw [List.length_map, List.length_range]

theorem is_corner_true_inv (m : SaeMatrix) (row col : Nat) (d : Option (List Rat))
    (h : arcstar_is_event_corner m row col = Except.ok (true, d)) :
    arcstar_check_for_point m row col = Except.ok (true, d) := by
  unfold arcstar_is_event_corner at h
  by_cases hb : (decide (col < BORDER_INSET) || decide (col ≥ usizeSub m.ncols BORDER_INSET) ||
      decide (row < BORDER_INSET) || decide (row ≥ usizeSub m.nrows BORDER_INSET)) = true
  · rw [if_pos hb] at h
    simp at h
  · rw [if_neg hb] at h
    exact h

theorem detect_ok_some_inv (m : SaeMatrix) (evt e' : SaeEvent)
    (h : detect_and_compute_one m evt = Except.ok (some e')) :
    ∃ d, arcstar_is_event_corner m evt.row evt.col = Except.ok (true, d) ∧
      e' = { evt with norm_descriptor := d } := by
  unfold detect_and_compute_one at h
  rcases hc : arcstar_is_event_corner m evt.row evt.col with u | pr
  · cases u
    rw [hc] at h
    simp at h
  · obtain ⟨b, d⟩ := pr
    rw [hc] at h
    cases b
    · simp at h
    · simp only [Except.ok.injEq, Option.some.injEq] at h
      exact ⟨d, rfl, h.symm⟩

theorem check_true_inv (m : SaeMatrix) (row col : Nat) (d : Option (List Rat))
    (h : arcstar_check_for_point m row col = Except.ok (true, d)) :
    ∃ v3 v4, c3_vals_for_point m row col = some v3 ∧ c4_vals_for_point m row col = some v4 ∧
      d = some (ring_desc v3 (find_freshest_in_circle v3).1
          ((max (find_freshest_in_circle v3).2 (find_freshest_in_circle v4).2 : Nat) : Rat) ++
        ring_desc v4 (find_freshest_in_circle v4).1
          ((max (find_freshest_in_circle v3).2 (find_freshest_in_circle v4).2 : Nat) : Rat)) := by
  rcases h3 : c3_vals_for_point m row col with _ | v3
  · unfold arcstar_check_for_point at h
    rw [h3] at h
    cases h
  · rw [check_unfold_sampled m row col v3 h3] at h
    by_cases hc3 : (decide (arcstar_expand v3 CIRCLE3_DIM CIRCLE3_MIN_ARC_LEN
        (find_freshest_in_circle v3).1 ≤ CIRCLE3_MAX_ARC_LEN) ||
      (decide (arcstar_expand v3 CIRCLE3_DIM CIRCLE3_MIN_ARC_LEN
        (find_freshest_in_circle v3).1 ≥ CIRCLE3_DIM - CIRCLE3_MAX_ARC_LEN) &&
       decide (arcstar_expand v3 CIRCLE3_DIM CIRCLE3_MIN_ARC_LEN
        (find_freshest_in_circle v3).1 ≤ CIRCLE3_DIM - CIRCLE3_MIN_ARC_LEN))) = true
    · rw [if_pos hc3] at h
      rcases h4 : c4_vals_for_point m row col with _ | v4
      · rw [h4] at h
        cases h
      · rw [match_c4_reduce m row col v4 _ h4] at h
        by_cases hc4 : (decide (arcstar_expand v4 CIRCLE4_DIM CIRCLE4_MIN_ARC_LEN
            (find_freshest_in_circle v4).1 ≤ CIRCLE4_MAX_ARC_LEN) ||
          (decide (arcstar_expand v4 CIRCLE4_DIM CIRCLE4_MIN_ARC_LEN
            (find_freshest_in_circle v4).1 ≥ CIRCLE4_DIM - CIRCLE4_MAX_ARC_LEN) &&
           decide (arcstar_expand v4 CIRCLE4_DIM CIRCLE4_MIN_ARC_LEN
            (find_freshest_in_circle v4).1 ≤ CIRCLE4_DIM - CIRCLE4_MIN_ARC_LEN))) = true
        · rw [if_pos hc4] at h
          simp only [Except.ok.injEq, Prod.mk.injEq] at h
          exact ⟨v3, v4, rfl, rfl, h.2.symm⟩
        · rw [if_neg hc4] at h
          simp at h
    · rw [if_neg hc3] at h
      simp at h

theorem detect_of_corner_true (m : SaeMatrix) (evt : SaeEvent) (d : Option (List Rat))
    (h : arcstar_is_event_corner m evt.row evt.col = Except.ok (true, d)) :
    detect_and_compute_one m evt = Except.ok (some { evt with norm_descriptor := d }) := by
  unfold detect_and_compute_one
  rw [h]

theorem is_corner_of_not_border (m : SaeMatrix) (row col : Nat)
    (hb : ¬((decide (col < BORDER_INSET) || decide (col ≥ usizeSub m.ncols BORDER_INSET) ||
      decide (row < BORDER_INSET) || decide (row ≥ usizeSub m.nrows BORDER_INSET)) = true)) :
    arcstar_is_event_corner m row col = arcstar_check_for_point m row col := by
  unfold arcstar_is_event_corner
  rw [if_neg hb]

/-! The outside-corner-SE test fixture of the repository (a 9-by-9 surface with
    the candidate at its center) — an accepted corner, used as the concrete
    accepted input of the witnesses. -/

def seRows : List (List Nat) :=
  [[0, 0, 0, 0, 0, 0, 0, 0, 0],
   [0, 0, 0, 0, 0, 0, 0, 0, 0],
   [0, 0, 0, 0, 0, 0, 0, 0, 0],
   [0, 0, 0, 0, 0, 0, 0, 0, 0],
   [0, 0, 0, 0, 9, 7, 7, 7, 7],
   [0, 0, 0, 0, 7, 7, 7, 7, 7],
   [0, 0, 0, 0, 7, 7, 7, 7, 7],
   [0, 0, 0, 0, 7, 7, 7, 7, 7],
   [0, 0, 0, 0, 7, 7, 7, 7, 7]]

def seMat : SaeMatrix :=
  { nrows := 9, ncols := 9, entry := fun r c => (seRows.getD r []).getD c 0 }

def seEvt : SaeEvent :=
  { row := 4, col := 4, polarity := 1, timestamp := 9, norm_descriptor := none }

def v3SE : List Nat := [7, 7, 7, 7, 7, 0, 0, 0, 0, 0, 0, 0, 0, 0, 0, 0]

def v4SE : List Nat := [7, 7, 7, 7, 7, 7, 0, 0, 0, 0, 0, 0, 0, 0, 0, 0, 0, 0, 0, 0]

def seF : Rat := ((max (find_freshest_in_circle v3SE).2 (find_freshest_in_circle v4SE).2 : Nat) : Rat)

def seDesc : List Rat :=
  ring_desc v3SE (find_freshest_in_circle v3SE).1 seF ++
  ring_desc v4SE (find_freshest_in_circle v4SE).1 seF

def seOut : SaeEvent :=
  { row := 4, col := 4, polarity := 1, timestamp := 9, norm_descriptor := some seDesc }

theorem seMat_c3 : c3_vals_for_point seMat 4 4 = some v3SE := by decide

theorem seMat_c4 : c4_vals_for_point seMat 4 4 = some v4SE := by decide

theorem seMat_check : arcstar_check_for_point seMat 4 4 = Except.ok (true, some seDesc) := by
  rw [check_unfold_sampled seMat 4 4 v3SE seMat_c3]
  rw [if_pos (by decide)]
  rw [match_c4_reduce seMat 4 4 v4SE _ seMat_c4]
  rw [if_pos (by decide)]
  rfl

theorem seMat_detect : detect_and_compute_one seMat seEvt = Except.ok (some seOut) := by
  have h := detect_of_corner_true seMat seEvt (some seDesc) ?_
  · exact h
  · rw [is_corner_of_not_border seMat seEvt.row seEvt.col (by decide)]
    exact seMat_check

/-- C7: when `detect_and_compute_one` returns a value, that value is a copy of
    the input event — same row, column, polarity and timestamp — carrying a
    populated descriptor of exactly 36 values; the input itself is a read-only
    borrow and is never mutated. -/
theorem detect_copies_fields (m : SaeMatrix) (evt e' : SaeEvent)
    (h : detect_and_compute_one m evt = Except.ok (some e')) :
    e'.row = evt.row ∧ e'.col = evt.col ∧ e'.polarity = evt.polarity ∧
    e'.timestamp = evt.timestamp ∧
    ∃ d, e'.norm_descriptor = some d ∧ d.length = NORM_DESCRIPTOR_LEN := by
  obtain ⟨d, hc, he⟩ := detect_ok_some_inv m evt e' h
  obtain ⟨v3, v4, h3, h4, hd⟩ := check_true_inv m evt.row evt.col d (is_corner_true_inv _ _ _ _ hc)
  subst he
  refine ⟨rfl, rfl, rfl, rfl, ?_⟩
  subst hd
  refine ⟨_, rfl, ?_⟩
  have l3 : v3.length = 16 := by
    rw [readRing_length m evt.row evt.col CIRCLE3_GEN v3 h3]
    rfl
  have l4 : v4.length = 20 := by
    rw [readRing_length m evt.row evt.col CIRCLE4_GEN v4 h4]
    rfl
  rw [List.length_append, ring_desc_length, ring_desc_length, l3, l4]
  rfl

/-- C7 witness. -/
theorem detect_copies_fields_witness :
    seOut.row = seEvt.row ∧ seOut.col = seEvt.col ∧ seOut.polarity = seEvt.polarity ∧
    seOut.timestamp = seEvt.timestamp ∧
    ∃ d, seOut.norm_descriptor = some d ∧ d.length = NORM_DESCRIPTOR_LEN :=
  detect_copies_fields seMat seEvt seOut seMat_detect

/-- C10: the classification decision and the computed descriptor depend only on
    the event's row and column and the surface: two input events agreeing on
    row and column (but arbitrary in polarity, timestamp, or any pre-attached
    descriptor) yield the same outcome shape and the same attached descriptor. -/
theorem detect_depends_only_on_position (m : SaeMatrix) (e1 e2 : SaeEvent)
    (hrow : e1.row = e2.row) (hcol : e1.col = e2.col) :
    (detect_and_compute_one m e1).map (Option.map SaeEvent.norm_descriptor) =
      (detect_and_compute_one m e2).map (Option.map SaeEvent.norm_descriptor) ∧
    (detect_and_compute_one m e1).map Option.isSome =
      (detect_and_compute_one m e2).map Option.isSome := by
  unfold detect_and_compute_one
  rw [hrow, hcol]
  rcases arcstar_is_event_corner m e2.row e2.col with u | pr
  · cases u
    exact ⟨rfl, rfl⟩
  · obtain ⟨b, d⟩ := pr
    cases b
    · exact ⟨rfl, rfl⟩
    · exact ⟨rfl, rfl⟩

/-- C10 witness: two events at the same pixel of the corner fixture, differing
    in polarity, timestamp and pre-attached descriptor. -/
theorem detect_depends_only_on_position_witness :
    (detect_and_compute_one seMat
        { row := 4, col := 4, polarity := 0, timestamp := 1, norm_descriptor := none }).map
        (Option.map SaeEvent.norm_descriptor) =
      (detect_and_compute_one seMat
        { row := 4, col := 4, polarity := 1, timestamp := 99,
          norm_descriptor := some (List.replicate 36 (666 : Rat)) }).map
        (Option.map SaeEvent.norm_descriptor) ∧
    (detect_and_compute_one seMat
        { row := 4, col := 4, polarity := 0, timestamp := 1, norm_descriptor := none }).map
        Option.isSome =
      (detect_and_compute_one seMat
        { row := 4, col := 4, polarity := 1, timestamp := 99,
          norm_descriptor := some (List.replicate 36 (666 : Rat)) }).map
        Option.isSome :=
  detect_depends_only_on_position seMat _ _ rfl rfl

theorem ring_desc_getD (vals : List Nat) (fidx : Nat) (F : Rat) (i : Nat) (h : i < vals.length) :
    (ring_desc vals fidx F).getD i 0 =
      1 - (F - ((vals.getD ((i + fidx) % vals.length) 0 : Nat) : Rat)) / F := by
  unfold ring_desc
  rw [List.getD_eq_getElem _ _ (by rw [List.length_map, List.length_range]; exact h)]
  rw [List.getElem_map, List.getElem_range]

/-- C4: an accepted event's descriptor has exactly 36 values: walking each
    ring's sequence from that ring's own freshest index and wrapping through
    all elements in order, each value `v` contributes
    `1 − (freshest_val − v) / freshest_val` with `freshest_val` the larger of
    the two rings' maximum timestamps, the 16 radius-3 values preceding the 20
    radius-4 values. -/
theorem descriptor_values (m : SaeMatrix) (evt e' : SaeEvent) (v3 v4 : List Nat)
    (h3 : c3_vals_for_point m evt.row evt.col = some v3)
    (h4 : c4_vals_for_point m evt.row evt.col = some v4)
    (hdet : detect_and_compute_one m evt = Except.ok (some e')) :
    ∃ d, e'.norm_descriptor = some d ∧ d.length = NORM_DESCRIPTOR_LEN ∧
      (∀ i, i < CIRCLE3_DIM → d.getD i 0 =
        1 - (((max (v3.foldr max 0) (v4.foldr max 0) : Nat) : Rat) -
          ((v3.getD ((i + (find_freshest_in_circle v3).1) % CIRCLE3_DIM) 0 : Nat) : Rat)) /
          ((max (v3.foldr max 0) (v4.foldr max 0) : Nat) : Rat)) ∧
      (∀ j, j < CIRCLE4_DIM → d.getD (CIRCLE3_DIM + j) 0 =
        1 - (((max (v3.foldr max 0) (v4.foldr max 0) : Nat) : Rat) -
          ((v4.getD ((j + (find_freshest_in_circle v4).1) % CIRCLE4_DIM) 0 : Nat) : Rat)) /
          ((max (v3.foldr max 0) (v4.foldr max 0) : Nat) : Rat)) := by
  obtain ⟨d0, hc, he⟩ := detect_ok_some_inv m evt e' hdet
  obtain ⟨v3', v4', h3', h4', hd⟩ :=
    check_true_inv m evt.row evt.col d0 (is_corner_true_inv _ _ _ _ hc)
  have e3 : v3 = v3' := (Option.some.inj (h3'.symm.trans h3)).symm
  have e4 : v4 = v4' := (Option.some.inj (h4'.symm.trans h4)).symm
  subst e3
  subst e4
  subst he
  subst hd
  have l3 : v3.length = 16 := by
    rw [readRing_length m evt.row evt.col CIRCLE3_GEN v3 h3]
    rfl
  have l4 : v4.length = 20 := by
    rw [readRing_length m evt.row evt.col CIRCLE4_GEN v4 h4]
    rfl
  have lr3 : (ring_desc v3 (find_freshest_in_circle v3).1
      ((max (find_freshest_in_circle v3).2 (find_freshest_in_circle v4).2 : Nat) : Rat)).length =
      16 := by
    rw [ring_desc_length, l3]
  have hC : CIRCLE3_DIM = 16 := rfl
  rw [← find_freshest_val v3, ← find_freshest_val v4]
  refine ⟨_, rfl, ?_, ?_, ?_⟩
  · rw [List.length_append, ring_desc_length, ring_desc_length, l3, l4]
    rfl
  · intro i hi
    rw [List.getD_append _ _ _ _ (by rw [lr3]; exact hi)]
    rw [ring_desc_getD v3 _ _ i (by rw [l3]; exact hi)]
    rw [l3]
    rfl
  · intro j hj
    rw [List.getD_append_right _ _ _ _ (by rw [lr3]; exact Nat.le_add_right 16 j)]
    rw [lr3, hC, Nat.add_sub_cancel_left]
    rw [ring_desc_getD v4 _ _ j (by rw [l4]; exact hj)]
    rw [l4]
    rfl

/-- C4 witness: the accepted corner fixture's descriptor satisfies the
    elementwise characterization. -/
theorem descriptor_values_witness :
    ∃ d, seOut.norm_descriptor = some d ∧ d.length = NORM_DESCRIPTOR_LEN ∧
      (∀ i, i < CIRCLE3_DIM → d.getD i 0 =
        1 - (((max (v3SE.foldr max 0) (v4SE.foldr max 0) : Nat) : Rat) -
          ((v3SE.getD ((i + (find_freshest_in_circle v3SE).1) % CIRCLE3_DIM) 0 : Nat) : Rat)) /
          ((max (v3SE.foldr max 0) (v4SE.foldr max 0) : Nat) : Rat)) ∧
      (∀ j, j < CIRCLE4_DIM → d.getD (CIRCLE3_DIM + j) 0 =
        1 - (((max (v3SE.foldr max 0) (v4SE.foldr max 0) : Nat) : Rat) -
          ((v4SE.getD ((j + (find_freshest_in_circle v4SE).1) % CIRCLE4_DIM) 0 : Nat) : Rat)) /
          ((max (v3SE.foldr max 0) (v4SE.foldr max 0) : Nat) : Rat)) :=
  descriptor_values seMat seEvt seOut v3SE v4SE seMat_c3 seMat_c4 seMat_detect

/-! Likeness (descriptor similarity). -/

theorem sumTriple_nil_right (b : List Rat) : sumTriple b [] = (0, 0, 0) := by
  cases b <;> rfl

theorem sumTriple_swap (a : List Rat) : ∀ b : List Rat,
    (sumTriple a b).1 = (sumTriple b a).2.1 ∧ (sumTriple a b).2.1 = (sumTriple b a).1 ∧
    (sumTriple a b).2.2 = (sumTriple b a).2.2 := by
  induction a with
  | nil =>
    intro b
    rw [sumTriple_nil_right b]
    exact ⟨rfl, rfl, rfl⟩
  | cons x xs ih =>
    intro b
    cases b with
    | nil =>
      rw [sumTriple_nil_right (x :: xs)]
      exact ⟨rfl, rfl, rfl⟩
    | cons y ys =>
      obtain ⟨i1, i2, i3⟩ := ih ys
      simp only [sumTriple]
      exact ⟨by rw [i1], by rw [i2], by rw [i3, min_comm]⟩

theorem sumTriple_eq_sums (a : List Rat) : ∀ b : List Rat, a.length = b.length →
    sumTriple a b = (a.sum, b.sum, (List.zipWith min a b).sum) := by
  induction a with
  | nil =>
    intro b hb
    cases b with
    | nil => rfl
    | cons y ys => cases hb
  | cons x xs ih =>
    intro b hb
    cases b with
    | nil => cases hb
    | cons y ys =>
      simp only [sumTriple, List.zipWith, List.sum_cons]
      rw [ih ys (by simpa using hb)]

theorem zipWith_min_sum_le_left (a : List Rat) : ∀ b : List Rat, a.length = b.length →
    (List.zipWith min a b).sum ≤ a.sum := by
  induction a with
  | nil =>
    intro b _
    simp
  | cons x xs ih =>
    intro b hb
    cases b with
    | nil => cases hb
    | cons y ys =>
      simp only [List.zipWith, List.sum_cons]
      exact add_le_add (min_le_left x y) (ih ys (by simpa using hb))

theorem zipWith_min_sum_le_right (a : List Rat) : ∀ b : List Rat, a.length = b.length →
    (List.zipWith min a b).sum ≤ b.sum := by
  induction a with
  | nil =>
    intro b hb
    cases b with
    | nil => simp
    | cons y ys => cases hb
  | cons x xs ih =>
    intro b hb
    cases b with
    | nil => cases hb
    | cons y ys =>
      simp only [List.zipWith, List.sum_cons]
      exact add_le_add (min_le_right x y) (ih ys (by simpa using hb))

theorem zipWith_min_nonneg (a : List Rat) : ∀ b : List Rat,
    (∀ x ∈ a, 0 ≤ x) → (∀ x ∈ b, 0 ≤ x) → 0 ≤ (List.zipWith min a b).sum := by
  induction a with
  | nil =>
    intro b _ _
    simp
  | cons x xs ih =>
    intro b ha hb
    cases b with
    | nil => simp
    | cons y ys =>
      simp only [List.zipWith, List.sum_cons]
      have h0 : (0 : Rat) ≤ min x y :=
        le_min (ha x (List.mem_cons_self x xs)) (hb y (List.mem_cons_self y ys))
      have h1 : (0 : Rat) ≤ (List.zipWith min xs ys).sum :=
        ih ys (fun z hz => ha z (List.mem_cons_of_mem x hz))
          (fun z hz => hb z (List.mem_cons_of_mem y hz))
      linarith

theorem zipWith_min_self (a : List Rat) : List.zipWith min a a = a := by
  induction a with
  | nil => rfl
  | cons x xs ih =>
    simp only [List.zipWith, min_self, ih]

theorem eq_of_min_sum (a : List Rat) : ∀ b : List Rat, a.length = b.length →
    (List.zipWith min a b).sum = a.sum → (List.zipWith min a b).sum = b.sum → a = b := by
  induction a with
  | nil =>
    intro b hb _ _
    cases b with
    | nil => rfl
    | cons y ys => cases hb
  | cons x xs ih =>
    intro b hb h1 h2
    cases b with
    | nil => cases hb
    | cons y ys =>
      have hlen : xs.length = ys.length := by simpa using hb
      simp only [List.zipWith, List.sum_cons] at h1 h2
      have hle1 : (List.zipWith min xs ys).sum ≤ xs.sum := zipWith_min_sum_le_left xs ys hlen
      have hle2 : (List.zipWith min xs ys).sum ≤ ys.sum := zipWith_min_sum_le_right xs ys hlen
      have hxy1 : min x y ≤ x := min_le_left x y
      have hxy2 : min x y ≤ y := min_le_right x y
      have hminx : min x y = x := by linarith
      have hminy : min x y = y := by linarith
      have hsx : (List.zipWith min xs ys).sum = xs.sum := by linarith
      have hsy : (List.zipWith min xs ys).sum = ys.sum := by linarith
      rw [hminx.symm.trans hminy, ih ys hlen hsx hsy]

/-- C8 (amended): `likeness` returns 0 when either descriptor is absent, is
    symmetric, and, with both 36-value descriptors present, equals
    `sum(min(a_i, b_i)) / max(sum a, sum b)`; when additionally all descriptor
    entries are nonnegative and at least one descriptor has a positive total,
    the result lies in `[0, 1]` and equals 1 exactly when the two descriptors
    are identical. -/
theorem likeness_props (a b : SaeEvent) :
    (a.norm_descriptor = none → likeness a b = 0) ∧
    (b.norm_descriptor = none → likeness a b = 0) ∧
    likeness a b = likeness b a ∧
    (∀ da db, a.norm_descriptor = some da → b.norm_descriptor = some db →
      da.length = NORM_DESCRIPTOR_LEN → db.length = NORM_DESCRIPTOR_LEN →
      likeness a b = (List.zipWith min da db).sum / max da.sum db.sum ∧
      ((∀ x ∈ da, 0 ≤ x) → (∀ x ∈ db, 0 ≤ x) → 0 < max da.sum db.sum →
        0 ≤ likeness a b ∧ likeness a b ≤ 1 ∧ (likeness a b = 1 ↔ da = db))) := by
  refine ⟨?_, ?_, ?_, ?_⟩
  · intro h
    unfold likeness
    rw [h]
    rcases b.norm_descriptor with _ | db <;> rfl
  · intro h
    unfold likeness
    rw [h]
    rcases a.norm_descriptor with _ | da <;> rfl
  · unfold likeness
    rcases a.norm_descriptor with _ | da
    · rcases b.norm_descriptor with _ | db <;> rfl
    · rcases b.norm_descriptor with _ | db
      · rfl
      · obtain ⟨s1, s2, s3⟩ := sumTriple_swap da db
        show (sumTriple da db).2.2 / max (sumTriple da db).1 (sumTriple da db).2.1 =
          (sumTriple db da).2.2 / max (sumTriple db da).1 (sumTriple db da).2.1
        rw [s1, s2, s3, max_comm]
  · intro da db hda hdb hl1 hl2
    have hlen : da.length = db.length := by rw [hl1, hl2]
    have hfor : likeness a b = (List.zipWith min da db).sum / max da.sum db.sum := by
      unfold likeness
      rw [hda, hdb]
      show (sumTriple da db).2.2 / max (sumTriple da db).1 (sumTriple da db).2.1 =
        (List.zipWith min da db).sum / max da.sum db.sum
      rw [sumTriple_eq_sums da db hlen]
    refine ⟨hfor, ?_⟩
    intro hna hnb hpos
    rw [hfor]
    refine ⟨?_, ?_, ?_⟩
    · exact div_nonneg (zipWith_min_nonneg da db hna hnb) (le_of_lt hpos)
    · rw [div_le_one hpos]
      exact le_trans (zipWith_min_sum_le_left da db hlen) (le_max_left _ _)
    · rw [div_eq_one_iff_eq (ne_of_gt hpos)]
      constructor
      · intro hS
        rcases le_total db.sum da.sum with hle | hle
        · have hM : max da.sum db.sum = da.sum := max_eq_left hle
          have h1 : (List.zipWith min da db).sum = da.sum := by rw [hS, hM]
          have h2 : (List.zipWith min da db).sum = db.sum := by
            have hub : (List.zipWith min da db).sum ≤ db.sum :=
              zipWith_min_sum_le_right da db hlen
            have hlb : db.sum ≤ (List.zipWith min da db).sum := by rw [h1]; exact hle
            linarith
          exact eq_of_min_sum da db hlen h1 h2
        · have hM : max da.sum db.sum = db.sum := max_eq_right hle
          have h2 : (List.zipWith min da db).sum = db.sum := by rw [hS, hM]
          have h1 : (List.zipWith min da db).sum = da.sum := by
            have hub : (List.zipWith min da db).sum ≤ da.sum :=
              zipWith_min_sum_le_left da db hlen
            have hlb : da.sum ≤ (List.zipWith min da db).sum := by rw [h2]; exact hle
            linarith
          exact eq_of_min_sum da db hlen h1 h2
      · intro hEq
        subst hEq
        rw [zipWith_min_self, max_self]

/-- C8 witness: bounds at the all-one-half versus all-one descriptor pair. -/
theorem likeness_props_witness :
    0 ≤ likeness
        { row := 0, col := 0, polarity := 0, timestamp := 0,
          norm_descriptor := some (List.replicate 36 ((1 : Rat)/2)) }
        { row := 0, col := 0, polarity := 0, timestamp := 0,
          norm_descriptor := some (List.replicate 36 (1 : Rat)) } ∧
    likeness
        { row := 0, col := 0, polarity := 0, timestamp := 0,
          norm_descriptor := some (List.replicate 36 ((1 : Rat)/2)) }
        { row := 0, col := 0, polarity := 0, timestamp := 0,
          norm_descriptor := some (List.replicate 36 (1 : Rat)) } ≤ 1 := by
  have h := (likeness_props
      { row := 0, col := 0, polarity := 0, timestamp := 0,
        norm_descriptor := some (List.replicate 36 ((1 : Rat)/2)) }
      { row := 0, col := 0, polarity := 0, timestamp := 0,
        norm_descriptor := some (List.replicate 36 (1 : Rat)) }).2.2.2
    (List.replicate 36 ((1 : Rat)/2)) (List.replicate 36 (1 : Rat)) rfl rfl
    (by rw [List.length_replicate]; rfl) (by rw [List.length_replicate]; rfl)
  have hb := h.2
    (fun x hx => by rw [List.eq_of_mem_replicate hx]; norm_num)
    (fun x hx => by rw [List.eq_of_mem_replicate hx]; norm_num)
    (lt_max_of_lt_right (by rw [List.sum_replicate, nsmul_eq_mul]; norm_num))
  exact ⟨hb.1, hb.2.1⟩

theorem sumTriple_zeros (n : Nat) :
    sumTriple (List.replicate n 0) (List.replicate n 0) = (0, 0, 0) := by
  induction n with
  | zero => rfl
  | succ k ih =>
    simp [List.replicate_succ, sumTriple, ih]

/-- An event carrying a descriptor with a negative entry. -/
def evNegA : SaeEvent :=
  { row := 0, col := 0, polarity := 0, timestamp := 0,
    norm_descriptor := some ((-1 : Rat) :: List.replicate 35 0) }

/-- An event carrying a descriptor with a more negative entry. -/
def evNegB : SaeEvent :=
  { row := 0, col := 0, polarity := 0, timestamp := 0,
    norm_descriptor := some ((-2 : Rat) :: List.replicate 35 0) }

/-- C8 counterexample: with both 36-value descriptors present but one entry
    negative, `likeness` evaluates to 2, outside the claimed interval [0, 1]. -/
theorem likeness_bounds_cex :
    likeness evNegA evNegB = 2 ∧ ¬ likeness evNegA evNegB ≤ 1 := by
  have h1 : sumTriple ((-1 : Rat) :: List.replicate 35 0) ((-2 : Rat) :: List.replicate 35 0) =
      ((-1 : Rat), (-2 : Rat), (-2 : Rat)) := by
    simp only [sumTriple, sumTriple_zeros]
    norm_num [min_def]
  have hlik : likeness evNegA evNegB = 2 := by
    unfold likeness evNegA evNegB
    simp only [h1]
    norm_num [max_def]
  exact ⟨hlik, by rw [hlik]; norm_num⟩

end Arcstar
